import Mathlib

/-!
Verification of the PDF legal-argument extraction pipeline (`app.py`).

Strings from the Python source are modelled as `List Char`; the scorer,
page selector, paragraph extractor, response parsing, the cache layer and
the upload control flow are translated function by function.  External
effects (the PDF reader, the Ollama call, filesystem I/O) appear as
explicit parameters carrying either a result or a raised-exception value.
-/

namespace App

/-- Whitespace characters of Python's `str.strip` / regex `\s` class,
restricted to the ASCII range used throughout the source. -/
def isPyWS (c : Char) : Bool :=
  c = ' ' || c = '\t' || c = '\n' || c = '\r' || c.toNat = 11 || c.toNat = 12

/-- Python `str.strip()`: drop leading and trailing whitespace. -/
def pyStrip (s : List Char) : List Char :=
  ((s.dropWhile isPyWS).reverse.dropWhile isPyWS).reverse

/-- Python `str.lower()` (ASCII case folding suffices for the source's keyword lists). -/
def lowerStr (s : List Char) : List Char := s.map Char.toLower

/-- `positive_keywords` list of `calculate_relevance_score` (app.py lines 108-109). -/
def positive_keywords : List (List Char) :=
  ["argue".toList, "contend".toList, "claim".toList, "assert".toList, "plaintiff".toList,
   "defendant".toList, "evidence".toList, "court".toList, "judgment".toList, "statute".toList,
   "therefore".toList, "conclude".toList]

/-- `strong_keywords` list of `calculate_relevance_score` (app.py lines 110-111). -/
def strong_keywords : List (List Char) :=
  ["precedent".toList, "constitutional".toList, "violation".toList, "protected".toList,
   "supreme court".toList, "fundamental".toList, "rights".toList, "law".toList,
   "legal".toList, "justice".toList]

/-- The two keyword sums of `calculate_relevance_score` (app.py lines 113-114):
`sum(1 for keyword in positive_keywords if keyword in text_lower)` plus
`sum(2 for keyword in strong_keywords if keyword in text_lower)`.
Python's `in` on strings is substring containment, i.e. `List.IsInfix`. -/
def keyword_points (text : List Char) : Nat :=
  positive_keywords.countP (fun k => decide (k <:+: lowerStr text)) +
    2 * strong_keywords.countP (fun k => decide (k <:+: lowerStr text))

/-- `calculate_relevance_score` (app.py lines 105-118): keyword sums plus a
length bonus of 1 when `100 <= len(text) <= 300`. -/
def calculate_relevance_score (text : List Char) : Nat :=
  keyword_points text + (if 100 ≤ text.length ∧ text.length ≤ 300 then 1 else 0)

/-- Python `sorted(set(l))` for a list of naturals: the strictly increasing
enumeration of the elements of `l` (app.py line 67). -/
def sortedSet (l : List Nat) : List Nat :=
  (List.range (l.foldr max 0 + 1)).filter (fun i => decide (i ∈ l))

/-- The strategic page selection of `extract_text_from_pdf` (app.py lines
51-67): page 0 always; pages 1 and 2 when `page_count > 3`; the middle page
and its neighbours when `page_count > 10`; the last two pages when
`page_count >= 5`; then `sorted(set(...))`. -/
def select_pages (page_count : Nat) : List Nat :=
  if page_count = 0 then []
  else
    sortedSet ([0] ++
      (if page_count > 3 then [1, 2] else []) ++
      (if page_count > 10 then
        [page_count / 2 - 1, page_count / 2, page_count / 2 + 1] else []) ++
      (if page_count ≥ 5 then [page_count - 2, page_count - 1] else []))

/-! ## Paragraph extraction (app.py lines 79-103) -/

/-- An extracted excerpt: 1-based page, trimmed newline-collapsed text, score. -/
structure Excerpt where
  page : Nat
  text : List Char
  relevance_score : Nat
deriving DecidableEq

/-- Stable insertion used by `stableSortBy`: `x` is placed before the first
element that is not strictly before it under `le`. -/
def insertBy {α : Type} (le : α → α → Bool) (x : α) : List α → List α
  | [] => [x]
  | y :: ys => if le y x && !(le x y) then y :: insertBy le x ys else x :: y :: ys

/-- Stable sort by the total preorder `le` ("may come before").  A stable
sort's output is uniquely determined by `le` and the input order, so this
models Python's stable `list.sort` exactly. -/
def stableSortBy {α : Type} (le : α → α → Bool) : List α → List α
  | [] => []
  | x :: xs => insertBy le x (stableSortBy le xs)

/-- One separator match of `re.split(r'\n\s*\n', text)` at the head of `s`:
a newline whose following maximal whitespace run contains another newline;
the greedy-then-backtracking `\s*` makes the separator end at the LAST
newline of that run.  Returns the remainder after the separator. -/
def blankSepRest (s : List Char) : Option (List Char) :=
  match s with
  | '\n' :: rest =>
      let run := rest.takeWhile isPyWS
      if run.contains '\n' then
        some ((run.reverse.takeWhile (fun c => c != '\n')).reverse ++ rest.drop run.length)
      else none
  | _ => none

/-- Fuelled scanner for `re.split(r'\n\s*\n', text)`; the fuel
`length + 1` is always sufficient since every step consumes a character. -/
def splitBlankGo : Nat → List Char → List Char → List (List Char)
  | 0, acc, s => [acc.reverse ++ s]
  | _ + 1, acc, [] => [acc.reverse]
  | fuel + 1, acc, c :: rest =>
      match blankSepRest (c :: rest) with
      | some rem => acc.reverse :: splitBlankGo fuel [] rem
      | none => splitBlankGo fuel (c :: acc) rest

/-- `re.split(r'\n\s*\n', text)` (app.py line 87). -/
def splitBlank (s : List Char) : List (List Char) :=
  splitBlankGo (s.length + 1) [] s

/-- `para.replace('\n', ' ')` applied characterwise. -/
def nlToSpace (c : Char) : Char := if c = '\n' then ' ' else c

/-- `extract_page_text` (app.py lines 79-103) on one page's raw text and its
0-based page number: return `[]` for whitespace-only text, split into
paragraphs on blank lines, strip and collapse newlines, drop paragraphs
shorter than 30 characters or scoring 0, sort by score descending (stably)
and keep the top 3.  The stored page number is 1-based (`page_num + 1`). -/
def extract_page_text (text : List Char) (page_num : Nat) : List Excerpt :=
  if pyStrip text = [] then []
  else
    let results := (splitBlank text).filterMap (fun para0 =>
      let para := (pyStrip para0).map nlToSpace
      if para.length < 30 then none
      else
        let score := calculate_relevance_score para
        if 0 < score then some ⟨page_num + 1, para, score⟩ else none)
    (stableSortBy (fun a b => decide (b.relevance_score ≤ a.relevance_score)) results).take 3

/-! ## The extraction coordinator (app.py lines 46-77) -/

/-- The comparison realised by
`extracted_text.sort(key=lambda x: (x['page'], x['relevance_score']), reverse=True)`:
`a` may come before `b` iff `(a.page, a.relevance_score)` is lexicographically
at least `(b.page, b.relevance_score)`. -/
def excerpt_before (a b : Excerpt) : Bool :=
  decide (b.page < a.page) ||
    (decide (a.page = b.page) && decide (b.relevance_score ≤ a.relevance_score))

/-- The merge step of `extract_text_from_pdf` (app.py lines 75-77): stable
sort by `(page, relevance_score)` descending, then keep the top 20. -/
def merge_excerpts (collected : List Excerpt) : List Excerpt :=
  (stableSortBy excerpt_before collected).take 20

/-- `extract_text_from_pdf` (app.py lines 46-77) on a document modelled as
the list of its pages' texts.  The thread pool's per-page results are
concatenated; `merge_excerpts` makes the completion order irrelevant for the
properties proved here, and `c5_coordinator` quantifies over every possible
collected list. -/
def extract_text_from_pdf (doc : List (List Char)) : List Excerpt :=
  merge_excerpts
    (((select_pages doc.length).map (fun p => extract_page_text (doc.getD p []) p)).flatten)

/-! ## Parsing the model response (app.py lines 163-179) -/

/-- Regex `\d` in the ASCII range. -/
def isDigitCh (c : Char) : Bool := '0' ≤ c && c ≤ '9'

/-- If `s` begins with a list-item marker (`\d+\.`, `\*` or `-`), drop the
marker characters and return the rest.  The marker's trailing `\s*` is
handled at the use sites: greedily (with backtracking at end of input) when
an item starts, and trivially inside the lookahead, where `\s*` always
matches and only the marker characters decide success. -/
def dropMarker (s : List Char) : Option (List Char) :=
  match s with
  | '*' :: r => some r
  | '-' :: r => some r
  | _ =>
    let ds := s.takeWhile isDigitCh
    if ds = [] then none
    else
      match s.drop ds.length with
      | '.' :: r => some r
      | _ => none

/-- Item content of `(.+?)` (with `re.DOTALL`) under the lookahead
`(?=\n(marker)|\Z)`: take characters until a newline followed by a marker,
or the end.  Returns the content and the remainder (which still begins with
the newline, where the next `(?:^|\n)` resumes). -/
def grabContent : List Char → List Char × List Char
  | [] => ([], [])
  | c :: r =>
    if c = '\n' ∧ (dropMarker r).isSome then ([], c :: r)
    else
      let p := grabContent r
      (c :: p.1, p.2)

/-- Fuelled scan of `re.findall` for the pattern
`(?:^|\n)(?:\d+\.\s*|\*\s*|-\s*)(.+?)(?=(?:\n(?:\d+\.\s*|\*\s*|-\s*)|\Z))`
(app.py line 178): an item starts at the beginning of the text or right
after a newline and begins with a marker; the marker's `\s*` is greedy, so
the item content starts at the first non-whitespace character after the
marker and the lookahead's separating newline may be swallowed by `\s*`.
When the marker's maximal whitespace run reaches the end of the input the
engine backtracks `\s*` by one character so that the mandatory `(.+?)` can
match it: the item is that single (whitespace) character, e.g.
`re.findall` on "1. " yields [" "]; when there is no whitespace to give
back the match attempt fails and the scan moves on. -/
def findItemsGo : Nat → Bool → List Char → List (List Char)
  | 0, _, _ => []
  | _ + 1, _, [] => []
  | fuel + 1, canStart, c :: r =>
    if canStart then
      match dropMarker (c :: r) with
      | some afterM =>
        let ws := afterM.takeWhile isPyWS
        match afterM.drop ws.length with
        | [] =>
          if ws = [] then findItemsGo fuel (c = '\n') r
          else [[(ws.getLast?).getD ' ']]
        | d :: r2 =>
          let p := grabContent r2
          (d :: p.1) :: findItemsGo fuel false p.2
      | none => findItemsGo fuel (c = '\n') r
    else findItemsGo fuel (c = '\n') r

/-- `re.findall(pattern, text, re.DOTALL)` of `extract_numbered_items`; the
fuel `length + 1` is always sufficient since every step consumes a character. -/
def findItems (s : List Char) : List (List Char) := findItemsGo (s.length + 1) true s

/-- `extract_numbered_items` (app.py lines 174-179): falsy (empty) input
gives `[]`; otherwise the stripped regex matches or — when the pattern
recognises no item — the stripped text split on `'\n'` (Python `str.split`,
which keeps empty pieces for blank lines). -/
def extract_numbered_items (text : List Char) : List (List Char) :=
  if text = [] then []
  else
    let found := (findItems text).map pyStrip
    if found = [] then (pyStrip text).splitOn '\n' else found

/-- The final artifact: Python dict `{"for": [...], "against": [...]}`;
`forArgs` models the "for" key and `againstArgs` the "against" key. -/
structure ArgumentSet where
  forArgs : List (List Char)
  againstArgs : List (List Char)
deriving DecidableEq

/-- Leftmost case-insensitive occurrence search of `re.search` with
`re.IGNORECASE` (`pat` given lowercase): returns the remainder right after
the matched occurrence, or `none` when `pat` occurs nowhere. -/
def searchCI (pat : List Char) : List Char → Option (List Char)
  | [] => if pat = [] then some [] else none
  | c :: r =>
    if pat.isPrefixOf (lowerStr (c :: r)) then some ((c :: r).drop pat.length)
    else searchCI pat r

/-- The optional colon of `FOR:?` / `AGAINST:?`. -/
def skipColon (s : List Char) : List Char :=
  match s with
  | ':' :: r => r
  | _ => s

/-- The lookahead token `AGAINST:` of the FOR-section regex, lowercase. -/
def againstColonTok : List Char := "against:".toList

/-- Lazy group `(.*?)` of `FOR:?(.*?)(?=AGAINST:|$)` with `re.DOTALL` and
`re.IGNORECASE`: stop at the first position where a case-insensitive
`AGAINST:` follows, at the end of the string, or just before a final newline
(where `$` matches without `re.MULTILINE`). -/
def forGroup : List Char → List Char
  | [] => []
  | c :: r =>
    if againstColonTok.isPrefixOf (lowerStr (c :: r)) then []
    else if c = '\n' ∧ r = [] then []
    else c :: forGroup r

/-- Lazy group of `AGAINST:?(.*?)(?=$)`: everything up to the first position
where `$` matches (the end, or just before a final newline). -/
def againstGroup : List Char → List Char
  | [] => []
  | c :: r => if c = '\n' ∧ r = [] then [] else c :: againstGroup r

/-- `parse_ollama_response` (app.py lines 163-172): locate the FOR and
AGAINST sections case-insensitively and extract list items from each;
a missing section yields an empty list. -/
def parse_ollama_response (content : List Char) : ArgumentSet :=
  let forLst :=
    match searchCI "for".toList content with
    | none => []
    | some rest => extract_numbered_items (forGroup (skipColon rest))
  let againstLst :=
    match searchCI "against".toList content with
    | none => []
    | some rest => extract_numbered_items (againstGroup (skipColon rest))
  ⟨forLst, againstLst⟩

/-! ## Argument synthesis (app.py lines 120-161) and the upload flow (185-206) -/

/-- `process_text_with_ollama` (app.py lines 120-161).  The external
`ollama.chat` call is modelled as a parameter carrying either the returned
response content or a raised exception.  On success the response is parsed;
on failure the except-branch (line 161) evaluates the name
`extract_arguments_rule_based`, which is defined nowhere in the repository
and imported from nowhere, so Python raises `NameError` inside the handler
and the exception propagates to the caller: the model returns an error. -/
def process_text_with_ollama (_extracted : List Excerpt)
    (ollamaCall : Except (List Char) (List Char)) : Except (List Char) ArgumentSet :=
  match ollamaCall with
  | .ok content => .ok (parse_ollama_response content)
  | .error _ =>
      .error "NameError: name extract_arguments_rule_based is not defined".toList

/-- The `upload` handler after the file is saved (app.py lines 197-206):
cache lookup, then under the lock extraction, synthesis and the cache write,
with the external call and both storage outcomes passed as parameters.
`save_to_cache` (lines 40-44) has no exception handler and its call site has
none either, so a storage failure propagates out of the request handler. -/
def uploadCore (cached : Option ArgumentSet) (extracted : List Excerpt)
    (ollamaCall : Except (List Char) (List Char))
    (saveOutcome : Except (List Char) Unit) : Except (List Char) ArgumentSet :=
  match cached with
  | some r => .ok r
  | none =>
    match process_text_with_ollama extracted ollamaCall with
    | .error e => .error e
    | .ok args =>
      match saveOutcome with
      | .error e => .error e
      | .ok _ => .ok args

/-! ## The result cache (app.py lines 25-44): `json.dump` / `json.load` of an
ArgumentSet, modelled down to the serialized byte text of the cache file. -/

/-- The character `{` (written by code point to keep it out of source text). -/
def lbrace : Char := Char.ofNat 123

/-- The character `}`. -/
def rbrace : Char := Char.ofNat 125

/-- Lowercase hex digit, as CPython's `\uXXXX` escapes emit. -/
def hexDig (d : Nat) : Char :=
  if d < 10 then Char.ofNat (48 + d) else Char.ofNat (87 + d)

/-- Four zero-padded lowercase hex digits of `n < 0x10000`. -/
def toHex4 (n : Nat) : List Char :=
  [hexDig (n / 4096 % 16), hexDig (n / 256 % 16), hexDig (n / 16 % 16), hexDig (n % 16)]

/-- `json.dump`'s `ensure_ascii` escaping of one character (the
`ESCAPE_ASCII` rule `([\\"]|[^\ -~])`): shorthand escapes for quote,
backslash and the common control characters, printable ASCII kept verbatim,
everything else `\uXXXX` with a surrogate pair above U+FFFF. -/
def escChar (c : Char) : List Char :=
  if c = '"' then ['\\', '"']
  else if c = '\\' then ['\\', '\\']
  else if c = Char.ofNat 8 then ['\\', 'b']
  else if c = '\t' then ['\\', 't']
  else if c = '\n' then ['\\', 'n']
  else if c = Char.ofNat 12 then ['\\', 'f']
  else if c = '\r' then ['\\', 'r']
  else if 32 ≤ c.toNat ∧ c.toNat ≤ 126 then [c]
  else if c.toNat ≤ 65535 then '\\' :: 'u' :: toHex4 c.toNat
  else
    ('\\' :: 'u' :: toHex4 (55296 + (c.toNat - 65536) / 1024)) ++
      ('\\' :: 'u' :: toHex4 (56320 + (c.toNat - 65536) % 1024))

/-- Escape a whole string body. -/
def escapeStr : List Char → List Char
  | [] => []
  | c :: s => escChar c ++ escapeStr s

/-- A JSON string literal: `"` body `"`. -/
def dumpStr (s : List Char) : List Char := '"' :: escapeStr s ++ ['"']

/-- List items joined with `json.dump`'s default item separator `", "`. -/
def dumpItems : List (List Char) → List Char
  | [] => []
  | [s] => dumpStr s
  | s :: rest => dumpStr s ++ ',' :: ' ' :: dumpItems rest

/-- A JSON array of strings. -/
def dumpList (l : List (List Char)) : List Char := '[' :: dumpItems l ++ [']']

/-- The key prefix `{"for": ` of the serialized dict. -/
def headerTok : List Char := lbrace :: '"' :: ("for".toList ++ ['"', ':', ' '])

/-- The middle token `, "against": ` of the serialized dict. -/
def midTok : List Char := ',' :: ' ' :: '"' :: ("against".toList ++ ['"', ':', ' '])

/-- `json.dump(data, f)` (app.py line 44) for the ArgumentSet dict, with
CPython's default separators and `ensure_ascii=True`, keys in insertion
order: `{"for": [...], "against": [...]}`. -/
def dumpArgs (S : ArgumentSet) : List Char :=
  headerTok ++ (dumpList S.forArgs ++ (midTok ++ (dumpList S.againstArgs ++ [rbrace])))

/-- Value of one hex digit accepted by `json.load` (0-9, a-f, A-F). -/
def fromHexDig (c : Char) : Option Nat :=
  if 48 ≤ c.toNat ∧ c.toNat ≤ 57 then some (c.toNat - 48)
  else if 97 ≤ c.toNat ∧ c.toNat ≤ 102 then some (c.toNat - 87)
  else if 65 ≤ c.toNat ∧ c.toNat ≤ 70 then some (c.toNat - 55)
  else none

/-- Value of four hex digits. -/
def hex4Val (a b g d : Char) : Option Nat :=
  match fromHexDig a, fromHexDig b, fromHexDig g, fromHexDig d with
  | some x, some y, some z, some w => some (4096 * x + 256 * y + 16 * z + w)
  | _, _, _, _ => none

/-- Prepend a character to the string being accumulated by the parser. -/
def consCh (c : Char) : Option (List Char × List Char) → Option (List Char × List Char)
  | none => none
  | some p => some (c :: p.1, p.2)

/-- `json.load`'s reading of a string-literal body up to the closing quote:
plain characters, shorthand escapes, and `\uXXXX` with surrogate-pair
recombination (a lone surrogate is rejected — the serializer never emits
one for the valid Unicode scalars a Lean `Char` carries).  Fuelled; every
step consumes at least one character, so fuel `length + 1` suffices. -/
def parseStrBodyF : Nat → List Char → Option (List Char × List Char)
  | 0, _ => none
  | _ + 1, [] => none
  | fuel + 1, c :: r =>
    if c = '"' then some ([], r)
    else if c = '\\' then
      match r with
      | [] => none
      | e :: r2 =>
        if e = 'u' then
          match r2 with
          | a :: b :: g :: d :: r3 =>
            (match hex4Val a b g d with
             | none => none
             | some n =>
               if 55296 ≤ n ∧ n ≤ 56319 then
                 (match r3 with
                  | s1 :: u1 :: a2 :: b2 :: g2 :: d2 :: r4 =>
                    if s1 = '\\' ∧ u1 = 'u' then
                      (match hex4Val a2 b2 g2 d2 with
                       | none => none
                       | some m =>
                         if 56320 ≤ m ∧ m ≤ 57343 then
                           consCh (Char.ofNat (65536 + 1024 * (n - 55296) + (m - 56320)))
                             (parseStrBodyF fuel r4)
                         else none)
                    else none
                  | _ => none)
               else if 56320 ≤ n ∧ n ≤ 57343 then none
               else consCh (Char.ofNat n) (parseStrBodyF fuel r3))
          | _ => none
        else if e = '"' then consCh '"' (parseStrBodyF fuel r2)
        else if e = '\\' then consCh '\\' (parseStrBodyF fuel r2)
        else if e = '/' then consCh '/' (parseStrBodyF fuel r2)
        else if e = 'b' then consCh (Char.ofNat 8) (parseStrBodyF fuel r2)
        else if e = 'f' then consCh (Char.ofNat 12) (parseStrBodyF fuel r2)
        else if e = 'n' then consCh '\n' (parseStrBodyF fuel r2)
        else if e = 'r' then consCh '\r' (parseStrBodyF fuel r2)
        else if e = 't' then consCh '\t' (parseStrBodyF fuel r2)
        else none
    else consCh c (parseStrBodyF fuel r)

/-- A string literal including its opening quote. -/
def parseStrLit : List Char → Option (List Char × List Char)
  | '"' :: r => parseStrBodyF (r.length + 1) r
  | _ => none

/-- One or more `", "`-separated string literals followed by `]`. -/
def parseItemsF : Nat → List Char → Option (List (List Char) × List Char)
  | 0, _ => none
  | fuel + 1, s =>
    match parseStrLit s with
    | none => none
    | some (v, rest) =>
      match rest with
      | ']' :: r2 => some ([v], r2)
      | ',' :: ' ' :: r2 =>
        (match parseItemsF fuel r2 with
         | none => none
         | some (vs, r3) => some (v :: vs, r3))
      | _ => none

/-- A JSON array of strings as serialized by `dumpList`. -/
def parseArr : List Char → Option (List (List Char) × List Char)
  | [] => none
  | c :: r =>
    if c = '[' then
      match r with
      | [] => none
      | d :: r2 => if d = ']' then some ([], r2) else parseItemsF (r.length + 1) (d :: r2)
    else none

/-- Consume an expected literal token. -/
def expectTok : List Char → List Char → Option (List Char)
  | [], s => some s
  | _ :: _, [] => none
  | c :: cs, d :: ds => if c = d then expectTok cs ds else none

/-- `json.load(f)` (app.py line 37) on the canonical text `json.dump`
produces for an ArgumentSet dict, recovering the structure. -/
def loadArgs (s : List Char) : Option ArgumentSet :=
  match expectTok headerTok s with
  | none => none
  | some s1 =>
    match parseArr s1 with
    | none => none
    | some (l1, s2) =>
      match expectTok midTok s2 with
      | none => none
      | some s3 =>
        match parseArr s3 with
        | none => none
        | some (l2, s4) => if s4 = [rbrace] then some ⟨l1, l2⟩ else none

/-- `get_cache_path` (app.py lines 25-30): `os.path.join(CACHE_DIR,
f"(file_hash).json")`, taken here on the hash itself since the claim
quantifies over hashes. -/
def get_cache_path (file_hash : List Char) : List Char :=
  "cache/".toList ++ (file_hash ++ ".json".toList)

/-- The filesystem as a path-to-file-text map with first-match lookup; a
fresh write shadows any older entry, matching overwrite semantics. -/
def lookupFS : List (List Char × List Char) → List Char → Option (List Char)
  | [], _ => none
  | (k, v) :: fs, p => if k = p then some v else lookupFS fs p

/-- `save_to_cache` (app.py lines 40-44): write `json.dump(data)` to the
cache path of the hash. -/
def save_to_cache (fs : List (List Char × List Char)) (file_hash : List Char)
    (data : ArgumentSet) : List (List Char × List Char) :=
  (get_cache_path file_hash, dumpArgs data) :: fs

/-- `check_cache` (app.py lines 32-38): `None` when the cache file does not
exist, else `json.load` of its text (a file not written by `save_to_cache`
that fails to parse is conflated with absence; the round-trip claim only
reads files `save_to_cache` wrote). -/
def check_cache (fs : List (List Char × List Char)) (file_hash : List Char) :
    Option ArgumentSet :=
  match lookupFS fs (get_cache_path file_hash) with
  | none => none
  | some contents => loadArgs contents

lemma keyword_points_append_le (p t : List Char) :
    keyword_points p ≤ keyword_points (p ++ t) := by
  unfold keyword_points
  have hmono : ∀ (kws : List (List Char)),
      kws.countP (fun k => decide (k <:+: lowerStr p)) ≤
        kws.countP (fun k => decide (k <:+: lowerStr (p ++ t))) := by
    intro kws
    refine List.countP_mono_left ?_
    intro k _ hk
    rw [decide_eq_true_iff] at hk ⊢
    have : lowerStr (p ++ t) = lowerStr p ++ lowerStr t := by
      simp [lowerStr]
    rw [this]
    exact hk.trans (List.prefix_append (lowerStr p) (lowerStr t)).isInfix
  exact Nat.add_le_add (hmono positive_keywords)
    (Nat.mul_le_mul_left 2 (hmono strong_keywords))

/-- C3 counterexample: the claim as stated is false — inserting an occurrence of the strong keyword
"rights" into the middle of "supreme court" destroys the occurrences of
"supreme court" (worth 2) and "court" (worth 1) while adding only "rights"
(worth 2), so the score strictly drops from 3 to 2. -/
theorem c3_counterexample :
    "rights".toList ∈ strong_keywords ∧
    "supreme cou".toList ++ "rights".toList ++ "rt".toList = "supreme courightsrt".toList ∧
    calculate_relevance_score "supreme courightsrt".toList <
      calculate_relevance_score "supreme court".toList := by
  decide

/-- C3 amended: appending an additional occurrence of a strong keyword never
decreases the keyword component of the score, and can decrease the total
score by at most 1 (the possible loss of the length bonus); in particular when
the original paragraph earns no length bonus the total score never decreases. -/
theorem c3_amended (p w : List Char) (_hw : w ∈ strong_keywords) :
    keyword_points p ≤ keyword_points (p ++ w) ∧
    calculate_relevance_score p ≤ calculate_relevance_score (p ++ w) + 1 ∧
    (¬ (100 ≤ p.length ∧ p.length ≤ 300) →
      calculate_relevance_score p ≤ calculate_relevance_score (p ++ w)) := by
  have hkp := keyword_points_append_le p w
  refine ⟨hkp, ?_, ?_⟩
  · unfold calculate_relevance_score
    split_ifs <;> omega
  · intro hnb
    unfold calculate_relevance_score
    split_ifs <;> omega

/-- C3 witness for `c3_amended` at the concrete paragraph "court" and keyword "law". -/
theorem c3_amended_witness :
    keyword_points "court".toList ≤ keyword_points ("court".toList ++ "law".toList) ∧
    calculate_relevance_score "court".toList ≤
      calculate_relevance_score ("court".toList ++ "law".toList) + 1 :=
  ⟨(c3_amended "court".toList "law".toList (by decide)).1,
   (c3_amended "court".toList "law".toList (by decide)).2.1⟩

/-- C9: the score is an integer in `[0, 33]` (at most 12 positive keywords
worth 1, 10 strong keywords worth 2, and a length bonus of 1), and the score
depends only on WHICH keywords occur in the lowercased text together with the
length-bonus condition — not on how often a keyword occurs, so repeated
occurrences of an already-present keyword add no keyword points. -/
theorem c9_score_presence_bound :
    (∀ text : List Char, calculate_relevance_score text ≤ 33) ∧
    (∀ t1 t2 : List Char,
      (∀ k ∈ positive_keywords, (k <:+: lowerStr t1) ↔ (k <:+: lowerStr t2)) →
      (∀ k ∈ strong_keywords, (k <:+: lowerStr t1) ↔ (k <:+: lowerStr t2)) →
      ((100 ≤ t1.length ∧ t1.length ≤ 300) ↔ (100 ≤ t2.length ∧ t2.length ≤ 300)) →
      calculate_relevance_score t1 = calculate_relevance_score t2) := by
  constructor
  · intro text
    unfold calculate_relevance_score keyword_points
    have h1 : positive_keywords.countP (fun k => decide (k <:+: lowerStr text)) ≤ 12 := by
      have := List.countP_le_length (fun k => decide (k <:+: lowerStr text))
        (l := positive_keywords)
      simpa [positive_keywords] using this
    have h2 : strong_keywords.countP (fun k => decide (k <:+: lowerStr text)) ≤ 10 := by
      have := List.countP_le_length (fun k => decide (k <:+: lowerStr text))
        (l := strong_keywords)
      simpa [strong_keywords] using this
    split_ifs <;> omega
  · intro t1 t2 hpos hstr hlen
    unfold calculate_relevance_score keyword_points
    have e1 : positive_keywords.countP (fun k => decide (k <:+: lowerStr t1)) =
        positive_keywords.countP (fun k => decide (k <:+: lowerStr t2)) := by
      refine List.countP_congr ?_
      intro k hk
      simpa using hpos k hk
    have e2 : strong_keywords.countP (fun k => decide (k <:+: lowerStr t1)) =
        strong_keywords.countP (fun k => decide (k <:+: lowerStr t2)) := by
      refine List.countP_congr ?_
      intro k hk
      simpa using hstr k hk
    rw [e1, e2, if_congr hlen rfl rfl]

/-- C9 witness for `c9_score_presence_bound`: two different paragraphs, "law" and
"xlawx", in which exactly the same keywords occur and which agree on the
length-bonus condition, receive the same score. -/
theorem c9_score_presence_bound_witness :
    calculate_relevance_score "law".toList ≤ 33 ∧
    calculate_relevance_score "law".toList = calculate_relevance_score "xlawx".toList :=
  ⟨c9_score_presence_bound.1 "law".toList,
   c9_score_presence_bound.2 "law".toList "xlawx".toList
     (by decide) (by decide) (by decide)⟩

/-! ## Page selection (app.py lines 51-67, inside `extract_text_from_pdf`) -/

lemma le_foldr_max {l : List Nat} {i : Nat} (h : i ∈ l) : i ≤ l.foldr max 0 := by
  induction l with
  | nil => cases h
  | cons a t ih =>
    rcases List.mem_cons.mp h with rfl | h'
    · exact le_max_left _ _
    · exact le_trans (ih h') (le_max_right _ _)

lemma mem_sortedSet {l : List Nat} {i : Nat} : i ∈ sortedSet l ↔ i ∈ l := by
  unfold sortedSet
  rw [List.mem_filter]
  simp only [List.mem_range, decide_eq_true_iff]
  constructor
  · rintro ⟨_, h⟩; exact h
  · intro h
    exact ⟨Nat.lt_succ_of_le (le_foldr_max h), h⟩

lemma sortedSet_pairwise (l : List Nat) : (sortedSet l).Pairwise (· < ·) :=
  (List.pairwise_lt_range _).filter _

lemma mem_select_pages (pc i : Nat) :
    i ∈ select_pages pc ↔
      (pc ≠ 0 ∧ (i = 0 ∨
        (pc > 3 ∧ (i = 1 ∨ i = 2)) ∨
        (pc > 10 ∧ (i = pc / 2 - 1 ∨ i = pc / 2 ∨ i = pc / 2 + 1)) ∨
        (pc ≥ 5 ∧ (i = pc - 2 ∨ i = pc - 1)))) := by
  unfold select_pages
  by_cases h0 : pc = 0
  · simp [h0]
  · rw [if_neg h0, mem_sortedSet]
    by_cases h3 : pc > 3 <;> by_cases h10 : pc > 10 <;> by_cases h5 : pc ≥ 5 <;>
      simp [h3, h10, h5, h0] <;> tauto

/-- C4: the page-selection step returns exactly the set given by the stated
policy, deduplicated and sorted strictly ascending, with every index within
`[0, page_count)`; the four concrete examples of the spec hold. -/
theorem c4_page_selection :
    (∀ pc : Nat, (select_pages pc).Pairwise (· < ·)) ∧
    (∀ pc i : Nat, i ∈ select_pages pc ↔
      (pc ≠ 0 ∧ (i = 0 ∨
        (pc > 3 ∧ (i = 1 ∨ i = 2)) ∨
        (pc > 10 ∧ (i = pc / 2 - 1 ∨ i = pc / 2 ∨ i = pc / 2 + 1)) ∨
        (pc ≥ 5 ∧ (i = pc - 2 ∨ i = pc - 1))))) ∧
    (∀ pc i : Nat, i ∈ select_pages pc → i < pc) ∧
    select_pages 0 = [] ∧ select_pages 2 = [0] ∧ select_pages 4 = [0, 1, 2] ∧
    select_pages 12 = [0, 1, 2, 5, 6, 7, 10, 11] := by
  refine ⟨?_, mem_select_pages, ?_, by decide, by decide, by decide, by decide⟩
  · intro pc
    unfold select_pages
    split
    · exact List.Pairwise.nil
    · exact sortedSet_pairwise _
  · intro pc i hi
    rw [mem_select_pages] at hi
    obtain ⟨h0, hcases⟩ := hi
    rcases hcases with rfl | ⟨h3, h⟩ | ⟨h10, h⟩ | ⟨h5, h⟩ <;> omega

/-- C4 witness for the bounds part of `c4_page_selection` at `page_count = 2`. -/
theorem c4_page_selection_witness : 0 ∈ select_pages 2 ∧ 0 < 2 :=
  ⟨by decide, c4_page_selection.2.2.1 2 0 (by decide)⟩

lemma mem_insertBy {α : Type} {le : α → α → Bool} {x a : α} {l : List α} :
    a ∈ insertBy le x l ↔ a = x ∨ a ∈ l := by
  induction l with
  | nil => simp [insertBy]
  | cons y ys ih =>
    unfold insertBy
    split
    · rw [List.mem_cons, ih, List.mem_cons]
      tauto
    · simp only [List.mem_cons]

lemma mem_stableSortBy {α : Type} {le : α → α → Bool} {a : α} {l : List α} :
    a ∈ stableSortBy le l ↔ a ∈ l := by
  induction l with
  | nil => simp [stableSortBy]
  | cons x xs ih =>
    unfold stableSortBy
    rw [mem_insertBy, ih, List.mem_cons]

lemma pairwise_insertBy {α : Type} {le : α → α → Bool}
    (total : ∀ a b, (le a b || le b a) = true)
    (trans : ∀ a b c, le a b = true → le b c = true → le a c = true)
    {x : α} {l : List α} (hl : l.Pairwise (fun a b => le a b = true)) :
    (insertBy le x l).Pairwise (fun a b => le a b = true) := by
  induction l with
  | nil => simp [insertBy]
  | cons y ys ih =>
    rcases List.pairwise_cons.mp hl with ⟨hy, hys⟩
    unfold insertBy
    split
    · rename_i hcond
      rw [Bool.and_eq_true, Bool.not_eq_true'] at hcond
      refine List.pairwise_cons.mpr ⟨?_, ih hys⟩
      intro b hb
      rcases mem_insertBy.mp hb with rfl | hb'
      · exact hcond.1
      · exact hy b hb'
    · rename_i hcond
      have hxy : le x y = true := by
        cases h1 : le y x with
        | false =>
          have htot := total x y
          rw [Bool.or_eq_true, h1] at htot
          tauto
        | true =>
          rw [h1] at hcond
          simpa using hcond
      refine List.pairwise_cons.mpr ⟨?_, hl⟩
      intro b hb
      rcases List.mem_cons.mp hb with rfl | hb'
      · exact hxy
      · exact trans x y b hxy (hy b hb')

lemma pairwise_stableSortBy {α : Type} {le : α → α → Bool}
    (total : ∀ a b, (le a b || le b a) = true)
    (trans : ∀ a b c, le a b = true → le b c = true → le a c = true)
    (l : List α) :
    (stableSortBy le l).Pairwise (fun a b => le a b = true) := by
  induction l with
  | nil => simp [stableSortBy]
  | cons x xs ih => exact pairwise_insertBy total trans ih

lemma pyStrip_nil_of_ws {text : List Char} (h : ∀ c ∈ text, isPyWS c = true) :
    pyStrip text = [] := by
  unfold pyStrip
  have h1 : text.dropWhile isPyWS = [] := List.dropWhile_eq_nil_iff.mpr h
  simp [h1]

/-- C6: the per-page extractor returns at most 3 excerpts, each with trimmed
newline-collapsed text of at least 30 characters (and positive score), and a
page whose text is only whitespace yields the empty sequence. -/
theorem c6_page_extractor :
    (∀ (text : List Char) (pn : Nat), (extract_page_text text pn).length ≤ 3) ∧
    (∀ (text : List Char) (pn : Nat) (e : Excerpt), e ∈ extract_page_text text pn →
      30 ≤ e.text.length ∧ 0 < e.relevance_score) ∧
    (∀ (text : List Char) (pn : Nat), (∀ c ∈ text, isPyWS c = true) →
      extract_page_text text pn = []) := by
  refine ⟨?_, ?_, ?_⟩
  · intro text pn
    unfold extract_page_text
    split
    · simp
    · rw [List.length_take]
      exact Nat.min_le_left _ _
  · intro text pn e he
    unfold extract_page_text at he
    split at he
    · cases he
    · have he' : e ∈ ((splitBlank text).filterMap (fun para0 =>
        let para := (pyStrip para0).map nlToSpace
        if para.length < 30 then none
        else
          let score := calculate_relevance_score para
          if 0 < score then some ⟨pn + 1, para, score⟩ else none)) := by
        exact mem_stableSortBy.mp ((List.take_sublist _ _).subset he)
      rw [List.mem_filterMap] at he'
      obtain ⟨para0, _, hsome⟩ := he'
      dsimp only at hsome
      by_cases hlen : ((pyStrip para0).map nlToSpace).length < 30
      · rw [if_pos hlen] at hsome; cases hsome
      · rw [if_neg hlen] at hsome
        by_cases hsc : 0 < calculate_relevance_score ((pyStrip para0).map nlToSpace)
        · rw [if_pos hsc] at hsome
          cases hsome
          refine ⟨?_, hsc⟩
          show 30 ≤ ((pyStrip para0).map nlToSpace).length
          omega
        · rw [if_neg hsc] at hsome; cases hsome
  · intro text pn h
    unfold extract_page_text
    rw [if_pos (pyStrip_nil_of_ws h)]

/-- C6 witness for `c6_page_extractor` on a concrete scoring paragraph and a
concrete whitespace-only page. -/
theorem c6_page_extractor_witness :
    (30 ≤ ("the court ruled that the law applies to all persons".toList).length ∧
      (⟨1, "the court ruled that the law applies to all persons".toList, 3⟩ : Excerpt) ∈
        extract_page_text "the court ruled that the law applies to all persons".toList 0 ∧
      0 < (3 : Nat)) ∧
    extract_page_text "  \n ".toList 7 = [] := by
  refine ⟨⟨by decide, ?_, ?_⟩, c6_page_extractor.2.2 "  \n ".toList 7 (by decide)⟩
  · decide
  · exact (c6_page_extractor.2.1 "the court ruled that the law applies to all persons".toList 0
      ⟨1, "the court ruled that the law applies to all persons".toList, 3⟩ (by decide)).2

lemma excerpt_before_total (a b : Excerpt) :
    (excerpt_before a b || excerpt_before b a) = true := by
  simp only [excerpt_before, Bool.or_eq_true, Bool.and_eq_true, decide_eq_true_iff]
  omega

lemma excerpt_before_trans (a b c : Excerpt) :
    excerpt_before a b = true → excerpt_before b c = true → excerpt_before a c = true := by
  simp only [excerpt_before, Bool.or_eq_true, Bool.and_eq_true, decide_eq_true_iff]
  omega

/-- C5: for any collected excerpt list (hence for any document and any thread
completion order) the coordinator's output has length at most 20 and is
ordered by page descending, ties broken by relevance score descending. -/
theorem c5_coordinator :
    (∀ collected : List Excerpt,
      (merge_excerpts collected).length ≤ 20 ∧
      (merge_excerpts collected).Pairwise (fun a b =>
        a.page > b.page ∨ (a.page = b.page ∧ a.relevance_score ≥ b.relevance_score))) ∧
    (∀ doc : List (List Char),
      (extract_text_from_pdf doc).length ≤ 20 ∧
      (extract_text_from_pdf doc).Pairwise (fun a b =>
        a.page > b.page ∨ (a.page = b.page ∧ a.relevance_score ≥ b.relevance_score))) := by
  have hmain : ∀ collected : List Excerpt,
      (merge_excerpts collected).length ≤ 20 ∧
      (merge_excerpts collected).Pairwise (fun a b =>
        a.page > b.page ∨ (a.page = b.page ∧ a.relevance_score ≥ b.relevance_score)) := by
    intro collected
    constructor
    · unfold merge_excerpts
      rw [List.length_take]
      exact Nat.min_le_left _ _
    · unfold merge_excerpts
      have hsorted := pairwise_stableSortBy excerpt_before_total excerpt_before_trans collected
      have hweak : (stableSortBy excerpt_before collected).Pairwise (fun a b =>
          a.page > b.page ∨ (a.page = b.page ∧ a.relevance_score ≥ b.relevance_score)) := by
        refine hsorted.imp ?_
        intro a b hab
        simp only [excerpt_before, Bool.or_eq_true, Bool.and_eq_true,
          decide_eq_true_iff] at hab
        omega
      exact hweak.sublist (List.take_sublist _ _)
  exact ⟨hmain, fun doc => hmain _⟩

/-- C7 counterexample: the claim as stated is false — on a region with no recognised list items
and an interior blank line, the fallback returns one item per line INCLUDING
an empty string for the blank line. -/
theorem c7_counterexample :
    findItems "foo\n\nbar".toList = [] ∧
    extract_numbered_items "foo\n\nbar".toList = ["foo".toList, [], "bar".toList] ∧
    [] ∈ extract_numbered_items "foo\n\nbar".toList := by
  decide

/-- C7 amended: when the pattern recognises no list items in a non-empty
region, the fallback returns one item per line of the stripped region —
exactly the stripped region split on newlines, so blank interior lines yield
empty-string items; every returned item is a line of the stripped region. -/
theorem c7_amended (text : List Char) (hne : text ≠ [])
    (hnone : findItems text = []) :
    extract_numbered_items text = (pyStrip text).splitOn '\n' ∧
    ∀ item ∈ extract_numbered_items text, item ∈ (pyStrip text).splitOn '\n' := by
  have h1 : extract_numbered_items text = (pyStrip text).splitOn '\n' := by
    unfold extract_numbered_items
    rw [if_neg hne, hnone]
    simp
  exact ⟨h1, fun item hi => h1 ▸ hi⟩

/-- C7 witness for `c7_amended` at the concrete region "foo\n\nbar". -/
theorem c7_amended_witness :
    extract_numbered_items "foo\n\nbar".toList =
      (pyStrip "foo\n\nbar".toList).splitOn '\n' :=
  (c7_amended "foo\n\nbar".toList (by decide) (by decide)).1

/-- C10: response parsing is total — the model is a total Lean function
mirroring every code path, always yielding a record with exactly the keys
"for" and "against" — and when the content has no case-insensitive FOR
occurrence the "for" list is empty, likewise for AGAINST. -/
theorem c10_response_parsing_total :
    ∀ content : List Char,
      (searchCI "for".toList content = none →
        (parse_ollama_response content).forArgs = []) ∧
      (searchCI "against".toList content = none →
        (parse_ollama_response content).againstArgs = []) := by
  intro content
  constructor
  · intro h
    show (match searchCI "for".toList content with
      | none => ([] : List (List Char))
      | some rest => extract_numbered_items (forGroup (skipColon rest))) = []
    rw [h]
  · intro h
    show (match searchCI "against".toList content with
      | none => ([] : List (List Char))
      | some rest => extract_numbered_items (againstGroup (skipColon rest))) = []
    rw [h]

/-- C10 witness for `c10_response_parsing_total` on content with neither marker. -/
theorem c10_response_parsing_total_witness :
    searchCI "for".toList "hello".toList = none ∧
    (parse_ollama_response "hello".toList).forArgs = [] ∧
    (parse_ollama_response "hello".toList).againstArgs = [] :=
  ⟨by decide, (c10_response_parsing_total "hello".toList).1 (by decide),
    (c10_response_parsing_total "hello".toList).2 (by decide)⟩

/-- C1 is a code bug: whenever the external summarization call raises, the
synthesizer does NOT return a rule-based ArgumentSet — the except-branch
references the undefined `extract_arguments_rule_based` and a `NameError`
propagates, so no `ArgumentSet` is ever produced on this path. -/
theorem c1_fallback_raises_nameerror :
    ∀ (extracted : List Excerpt) (err : List Char),
      process_text_with_ollama extracted (Except.error err) =
        Except.error "NameError: name extract_arguments_rule_based is not defined".toList ∧
      ∀ S : ArgumentSet,
        process_text_with_ollama extracted (Except.error err) ≠ Except.ok S :=
  fun _ _ => ⟨rfl, fun _ h => Except.noConfusion h⟩

/-- C1 witness for `c1_fallback_raises_nameerror` at a concrete failing call. -/
theorem c1_fallback_raises_nameerror_witness :
    process_text_with_ollama [] (Except.error "connection refused".toList) ≠
      Except.ok ⟨[], []⟩ :=
  (c1_fallback_raises_nameerror [] "connection refused".toList).2 ⟨[], []⟩

/-- C2 counterexample: the claim as stated is false — on a cache miss with a successful
synthesis, a failing cache write makes the request fail instead of
returning the computed ArgumentSet. -/
theorem c2_counterexample :
    process_text_with_ollama [] (Except.ok []) = Except.ok ⟨[], []⟩ ∧
    uploadCore none [] (Except.ok []) (Except.error "disk full".toList) =
      Except.error "disk full".toList ∧
    uploadCore none [] (Except.ok []) (Except.error "disk full".toList) ≠
      Except.ok ⟨[], []⟩ := by
  refine ⟨rfl, rfl, fun h => Except.noConfusion h⟩

/-- C2 amended: a storage-layer I/O failure in `save_to_cache` is NOT
swallowed — whenever synthesis succeeds and the cache write fails, the
upload request fails with that error instead of returning the computed
ArgumentSet. -/
theorem c2_amended (extracted : List Excerpt)
    (ollamaCall : Except (List Char) (List Char)) (args : ArgumentSet) (e : List Char)
    (h : process_text_with_ollama extracted ollamaCall = Except.ok args) :
    uploadCore none extracted ollamaCall (Except.error e) = Except.error e := by
  unfold uploadCore
  rw [h]

/-- C2 witness for `c2_amended` at a concrete successful synthesis. -/
theorem c2_amended_witness :
    uploadCore none [] (Except.ok []) (Except.error "disk full".toList) =
      Except.error "disk full".toList :=
  c2_amended [] (Except.ok []) ⟨[], []⟩ "disk full".toList rfl

lemma fromHexDig_hexDig : ∀ d, d < 16 → fromHexDig (hexDig d) = some d := by decide

lemma hex4Val_toHex4 {n : Nat} (h : n ≤ 65535) :
    hex4Val (hexDig (n / 4096 % 16)) (hexDig (n / 256 % 16))
      (hexDig (n / 16 % 16)) (hexDig (n % 16)) = some n := by
  unfold hex4Val
  rw [fromHexDig_hexDig _ (by omega), fromHexDig_hexDig _ (by omega),
    fromHexDig_hexDig _ (by omega), fromHexDig_hexDig _ (by omega)]
  exact congrArg some (by omega)

lemma parseStrBodyF_quote (t : List Char) (fuel : Nat) :
    parseStrBodyF (fuel + 1) ('"' :: t) = some ([], t) := rfl

lemma parseStrBodyF_plain (c : Char) (t : List Char) (fuel : Nat)
    (h1 : ¬ c = '"') (h2 : ¬ c = '\\') :
    parseStrBodyF (fuel + 1) (c :: t) = consCh c (parseStrBodyF fuel t) := by
  simp only [parseStrBodyF]
  rw [if_neg h1, if_neg h2]

lemma parseStrBodyF_u (a b g d : Char) (t : List Char) (fuel n : Nat)
    (hv : hex4Val a b g d = some n) (hn1 : n < 55296 ∨ 57344 ≤ n) :
    parseStrBodyF (fuel + 1) ('\\' :: 'u' :: a :: b :: g :: d :: t) =
      consCh (Char.ofNat n) (parseStrBodyF fuel t) := by
  simp +decide only [parseStrBodyF]
  rw [hv]
  simp only [if_true, if_false]
  rw [if_neg (by omega : ¬ (55296 ≤ n ∧ n ≤ 56319)),
    if_neg (by omega : ¬ (56320 ≤ n ∧ n ≤ 57343))]

lemma parseStrBodyF_u_pair (a b g d a2 b2 g2 d2 : Char) (t : List Char) (fuel n m : Nat)
    (hv : hex4Val a b g d = some n) (hv2 : hex4Val a2 b2 g2 d2 = some m)
    (hn : 55296 ≤ n ∧ n ≤ 56319) (hm : 56320 ≤ m ∧ m ≤ 57343) :
    parseStrBodyF (fuel + 1)
        ('\\' :: 'u' :: a :: b :: g :: d :: '\\' :: 'u' :: a2 :: b2 :: g2 :: d2 :: t) =
      consCh (Char.ofNat (65536 + 1024 * (n - 55296) + (m - 56320)))
        (parseStrBodyF fuel t) := by
  simp +decide only [parseStrBodyF]
  rw [hv]
  simp only [if_true, if_false]
  rw [if_pos hn]
  simp only [hv2]
  rw [if_pos hm]

lemma escChar_step (c : Char) (t : List Char) (fuel : Nat) :
    parseStrBodyF (fuel + 1) (escChar c ++ t) = consCh c (parseStrBodyF fuel t) := by
  have hval : c.toNat < 55296 ∨ (57344 ≤ c.toNat ∧ c.toNat < 1114112) := c.valid
  by_cases h1 : c = '"'
  · subst h1; rfl
  by_cases h2 : c = '\\'
  · subst h2; rfl
  by_cases h3 : c = Char.ofNat 8
  · subst h3; rfl
  by_cases h4 : c = '\t'
  · subst h4; rfl
  by_cases h5 : c = '\n'
  · subst h5; rfl
  by_cases h6 : c = Char.ofNat 12
  · subst h6; rfl
  by_cases h7 : c = '\r'
  · subst h7; rfl
  by_cases h8 : 32 ≤ c.toNat ∧ c.toNat ≤ 126
  · rw [escChar, if_neg h1, if_neg h2, if_neg h3, if_neg h4, if_neg h5, if_neg h6,
      if_neg h7, if_pos h8]
    exact parseStrBodyF_plain c t fuel h1 h2
  by_cases h9 : c.toNat ≤ 65535
  · rw [escChar, if_neg h1, if_neg h2, if_neg h3, if_neg h4, if_neg h5, if_neg h6,
      if_neg h7, if_neg h8, if_pos h9]
    have hhex : hex4Val (hexDig (c.toNat / 4096 % 16)) (hexDig (c.toNat / 256 % 16))
        (hexDig (c.toNat / 16 % 16)) (hexDig (c.toNat % 16)) = some c.toNat :=
      hex4Val_toHex4 h9
    have hstep := parseStrBodyF_u _ _ _ _ t fuel c.toNat hhex (by omega)
    rw [toHex4]
    simp only [List.cons_append, List.nil_append] at hstep ⊢
    rw [hstep, Char.ofNat_toNat]
  · rw [escChar, if_neg h1, if_neg h2, if_neg h3, if_neg h4, if_neg h5, if_neg h6,
      if_neg h7, if_neg h8, if_neg h9]
    have hhi : hex4Val (hexDig ((55296 + (c.toNat - 65536) / 1024) / 4096 % 16))
        (hexDig ((55296 + (c.toNat - 65536) / 1024) / 256 % 16))
        (hexDig ((55296 + (c.toNat - 65536) / 1024) / 16 % 16))
        (hexDig ((55296 + (c.toNat - 65536) / 1024) % 16)) =
        some (55296 + (c.toNat - 65536) / 1024) := hex4Val_toHex4 (by omega)
    have hlo : hex4Val (hexDig ((56320 + (c.toNat - 65536) % 1024) / 4096 % 16))
        (hexDig ((56320 + (c.toNat - 65536) % 1024) / 256 % 16))
        (hexDig ((56320 + (c.toNat - 65536) % 1024) / 16 % 16))
        (hexDig ((56320 + (c.toNat - 65536) % 1024) % 16)) =
        some (56320 + (c.toNat - 65536) % 1024) := hex4Val_toHex4 (by omega)
    have hpair := parseStrBodyF_u_pair _ _ _ _ _ _ _ _ t fuel _ _ hhi hlo
      (by omega) (by omega)
    rw [toHex4, toHex4]
    simp only [List.cons_append, List.nil_append] at hpair ⊢
    rw [hpair]
    have harith : 65536 + 1024 * ((55296 + (c.toNat - 65536) / 1024) - 55296) +
        ((56320 + (c.toNat - 65536) % 1024) - 56320) = c.toNat := by omega
    rw [harith, Char.ofNat_toNat]

lemma escapeStr_round (v : List Char) :
    ∀ (rest : List Char) (fuel : Nat), v.length + 1 ≤ fuel →
      parseStrBodyF fuel (escapeStr v ++ '"' :: rest) = some (v, rest) := by
  induction v with
  | nil =>
    intro rest fuel hf
    obtain ⟨f, rfl⟩ : ∃ f, fuel = f + 1 := ⟨fuel - 1, by omega⟩
    exact parseStrBodyF_quote rest f
  | cons c v ih =>
    intro rest fuel hf
    obtain ⟨f, rfl⟩ : ∃ f, fuel = f + 1 := ⟨fuel - 1, by omega⟩
    rw [escapeStr, List.append_assoc, escChar_step c _ f,
      ih rest f (by simpa using Nat.lt_succ_iff.mp hf)]
    rfl

lemma escapeStr_length_le (v : List Char) : v.length ≤ (escapeStr v).length := by
  induction v with
  | nil => simp [escapeStr]
  | cons c v ih =>
    rw [escapeStr, List.length_append]
    have h1 : 1 ≤ (escChar c).length := by
      unfold escChar
      split_ifs <;> simp
    simp only [List.length_cons]
    omega

lemma parseStrLit_cons (r : List Char) :
    parseStrLit ('"' :: r) = parseStrBodyF (r.length + 1) r := rfl

lemma parseStrLit_dumpStr (v rest : List Char) :
    parseStrLit (dumpStr v ++ rest) = some (v, rest) := by
  have hshape : dumpStr v ++ rest = '"' :: (escapeStr v ++ '"' :: rest) := by
    simp [dumpStr]
  rw [hshape, parseStrLit_cons]
  refine escapeStr_round v rest _ ?_
  have h1 := escapeStr_length_le v
  rw [List.length_append]
  simp only [List.length_cons]
  omega

lemma dumpItems_length_ge (l : List (List Char)) : l.length ≤ (dumpItems l).length := by
  induction l with
  | nil => simp [dumpItems]
  | cons v vs ih =>
    cases vs with
    | nil => simp [dumpItems, dumpStr]
    | cons w ws =>
      rw [show dumpItems (v :: w :: ws) = dumpStr v ++ ',' :: ' ' :: dumpItems (w :: ws)
        from rfl]
      rw [List.length_append]
      simp only [List.length_cons] at ih ⊢
      have h1 : 1 ≤ (dumpStr v).length := by simp [dumpStr]
      omega

lemma parseItemsF_round (l : List (List Char)) (hl : l ≠ []) :
    ∀ (rest : List Char) (fuel : Nat), l.length ≤ fuel →
      parseItemsF fuel (dumpItems l ++ ']' :: rest) = some (l, rest) := by
  induction l with
  | nil => cases hl rfl
  | cons v vs ih =>
    intro rest fuel hf
    obtain ⟨f, rfl⟩ : ∃ f, fuel = f + 1 := ⟨fuel - 1, by simp at hf; omega⟩
    cases vs with
    | nil =>
      rw [show dumpItems [v] = dumpStr v from rfl]
      simp only [parseItemsF]
      rw [parseStrLit_dumpStr v (']' :: rest)]
      rfl
    | cons w ws =>
      rw [show dumpItems (v :: w :: ws) = dumpStr v ++ ',' :: ' ' :: dumpItems (w :: ws)
        from rfl]
      simp only [parseItemsF, List.append_assoc, List.cons_append]
      rw [parseStrLit_dumpStr v (',' :: ' ' :: (dumpItems (w :: ws) ++ ']' :: rest))]
      have hrec := ih (by simp) rest f (by simp at hf ⊢; omega)
      simp only [hrec]

lemma parseArr_dumpList (l : List (List Char)) (rest : List Char) :
    parseArr (dumpList l ++ rest) = some (l, rest) := by
  cases l with
  | nil => rfl
  | cons v vs =>
    have hshape : dumpList (v :: vs) ++ rest = '[' :: (dumpItems (v :: vs) ++ ']' :: rest) := by
      simp [dumpList]
    rw [hshape]
    obtain ⟨q, hq⟩ : ∃ q, dumpItems (v :: vs) ++ ']' :: rest = '"' :: q := by
      cases vs <;> simp [dumpItems, dumpStr]
    rw [hq]
    rw [show parseArr ('[' :: '"' :: q) = parseItemsF (q.length + 1 + 1) ('"' :: q) from rfl]
    rw [← hq]
    refine parseItemsF_round (v :: vs) (by simp) rest _ ?_
    have h1 := dumpItems_length_ge (v :: vs)
    have h2 : ('"' :: q).length = (dumpItems (v :: vs) ++ ']' :: rest).length := by rw [hq]
    rw [List.length_append] at h2
    simp only [List.length_cons] at h1 h2 ⊢
    omega

lemma expectTok_append (tok s : List Char) : expectTok tok (tok ++ s) = some s := by
  induction tok with
  | nil => rfl
  | cons c cs ih => simp [expectTok, ih]

lemma loadArgs_dumpArgs (S : ArgumentSet) : loadArgs (dumpArgs S) = some S := by
  obtain ⟨f, a⟩ := S
  rw [dumpArgs]
  simp only [loadArgs, expectTok_append, parseArr_dumpList]
  rfl

example :
    loadArgs (dumpArgs ⟨["a \" b\\c".toList, "".toList, "\t\n".toList,
      [Char.ofNat 233, Char.ofNat 1, Char.ofNat 128522], "x".toList],
      ["page 3".toList]⟩) =
    some ⟨["a \" b\\c".toList, "".toList, "\t\n".toList,
      [Char.ofNat 233, Char.ofNat 1, Char.ofNat 128522], "x".toList],
      ["page 3".toList]⟩ := by
  decide

/-- C8: cache round trip — for every filesystem state, hash and ArgumentSet,
storing with `save_to_cache` and looking the hash up with `check_cache`
returns exactly the stored set: the serialized file text written by
`json.dump` reads back as the identical structure through `json.load`. -/
theorem c8_cache_round_trip (fs : List (List Char × List Char))
    (file_hash : List Char) (S : ArgumentSet) :
    check_cache (save_to_cache fs file_hash S) file_hash = some S := by
  unfold check_cache save_to_cache
  simp only [lookupFS, if_pos rfl]
  exact loadArgs_dumpArgs S

end App
